import Mathlib

/-!
Verification development for the Velocitas HFT repository.

The definitions below are a shallow embedding of the repository's code:
the frontend TypeScript (trade-history statistics and filters, the
optimization/backtest dashboard, the API client, the WebSocket reconnect
logic) is translated function by function, and the backend engine —
whose Python sources are not part of this tree, only its documentation —
is modelled from the specification where a claim needs it (each such
definition is marked `Modelled from the spec:`).

JavaScript numbers only ever enter these claims through sign tests,
ordered comparisons and exact sums/products on values the code constructs
directly, so they are embedded as `Int`/`ℚ`.
-/

/-! ## Trade history statistics and filters
    (src/frontend/src/components/dashboard/TradeHistoryDashboard.tsx) -/

/-- A row of the trade-history table, with the fields the dashboard reads:
`coin`, `strategy` and `status` are compared as strings, `pnl` only through
its sign and sums (embedded as `Int`). -/
structure Trade where
  coin : String
  strategy : String
  status : String
  pnl : Int
deriving DecidableEq, Repr

/-- The three dropdown filters of the dashboard (`filters` state,
TradeHistoryDashboard.tsx lines 12‑16). -/
structure Filters where
  coin : String
  strategy : String
  status : String
deriving DecidableEq, Repr

/-- The filter predicate of `filteredTrades`
(TradeHistoryDashboard.tsx lines 18‑23): three early returns of `false`,
each guarded by "filter is not All and differs from the trade's field". -/
def tradePassesFilters (f : Filters) (t : Trade) : Bool :=
  if f.coin ≠ "All" ∧ t.coin ≠ f.coin then false
  else if f.strategy ≠ "All" ∧ t.strategy ≠ f.strategy then false
  else if f.status ≠ "All" ∧ t.status ≠ f.status then false
  else true

/-- `filteredTrades = trades.filter(...)` (TradeHistoryDashboard.tsx line 18). -/
def filteredTrades (f : Filters) (trades : List Trade) : List Trade :=
  trades.filter (tradePassesFilters f)

/-- `executedTrades = filteredTrades.filter(t => t.status === 'Executed')`
(TradeHistoryDashboard.tsx line 26), taken over an arbitrary trade list. -/
def executedTrades (trades : List Trade) : List Trade :=
  trades.filter (fun t => t.status = "Executed")

/-- `winningTrades = executedTrades.filter(t => t.pnl > 0)`
(TradeHistoryDashboard.tsx line 27). -/
def winningTrades (trades : List Trade) : List Trade :=
  (executedTrades trades).filter (fun t => 0 < t.pnl)

/-- `losingTrades = executedTrades.filter(t => t.pnl < 0)`
(TradeHistoryDashboard.tsx line 28). -/
def losingTrades (trades : List Trade) : List Trade :=
  (executedTrades trades).filter (fun t => t.pnl < 0)

/-- Sum of the `pnl` fields of a trade list. -/
def sumPnl (trades : List Trade) : Int :=
  (trades.map Trade.pnl).sum

/-- Modelled from the spec: `GlobalMetrics.grossProfit`, the backend
aggregate of winning-trade P&L (engine sources absent from this tree);
computed over the same per-trade `pnl` the dashboard displays. -/
def grossProfit (trades : List Trade) : Int := sumPnl (winningTrades trades)

/-- Modelled from the spec: `GlobalMetrics.grossLoss`, the (positive)
aggregate of losing-trade P&L magnitudes. -/
def grossLoss (trades : List Trade) : Int := -(sumPnl (losingTrades trades))

/-- Modelled from the spec: `GlobalMetrics.netPnL`, the realized P&L
summed over all executed trades. -/
def netPnL (trades : List Trade) : Int := sumPnl (executedTrades trades)

/-- The all-pass filter configuration offered by the `Clear Filters`
button (TradeHistoryDashboard.tsx line 169). -/
def allFilters : Filters := ⟨"All", "All", "All"⟩

/-- An executed trade whose realized P&L is exactly zero. -/
def zeroPnlTrade : Trade := ⟨"BTC", "SMA_Crossover", "Executed", 0⟩

lemma length_filter_sign_split (l : List Trade) (h : ∀ t ∈ l, t.pnl ≠ 0) :
    l.length = (l.filter (fun t => 0 < t.pnl)).length
      + (l.filter (fun t => t.pnl < 0)).length := by
  induction l with
  | nil => simp
  | cons t l ih =>
    have ht : t.pnl ≠ 0 := h t (by simp)
    have hl : ∀ u ∈ l, u.pnl ≠ 0 := fun u hu => h u (by simp [hu])
    rcases lt_trichotomy t.pnl 0 with hlt | heq | hgt
    · simp [List.filter, hlt, not_lt.mpr hlt.le, ih hl]
      omega
    · exact absurd heq ht
    · simp [List.filter, hgt, not_lt.mpr hgt.le, ih hl]
      omega

lemma sumPnl_sign_split (l : List Trade) :
    sumPnl l = sumPnl (l.filter (fun t => 0 < t.pnl))
      + sumPnl (l.filter (fun t => t.pnl < 0)) := by
  induction l with
  | nil => simp [sumPnl]
  | cons t l ih =>
    rcases lt_trichotomy t.pnl 0 with hlt | heq | hgt
    · simp [sumPnl, List.filter, hlt, not_lt.mpr hlt.le] at ih ⊢
      omega
    · simp [sumPnl, List.filter, heq] at ih ⊢
      omega
    · simp [sumPnl, List.filter, hgt, not_lt.mpr hgt.le] at ih ⊢
      omega

/-- Claim C1 (counterexample): the trade-statistics computation counts a
winning trade only when `pnl > 0` and a losing one only when `pnl < 0`, so
an executed trade with realized P&L exactly zero is counted on neither
side: for the one-element list holding such a trade the executed count is
1 while winning + losing is 0, refuting the claimed invariant
`totalTrades == winningTrades + losingTrades` over executed trades. -/
theorem executed_count_invariant_fails_on_zero_pnl :
    (executedTrades [zeroPnlTrade]).length ≠
      (winningTrades [zeroPnlTrade]).length + (losingTrades [zeroPnlTrade]).length := by
  decide

/-- Claim C1 (amended): the aggregate identity
`netPnL = grossProfit − grossLoss` holds for every trade list (a zero-P&L
trade contributes 0 to each sum), and the dashboard's executed-trade count
equals its winning count plus its losing count for every trade list in
which no executed trade has realized P&L exactly zero — the counterexample
above shows the count identity fails exactly on the excluded lists, since
a zero-P&L executed trade is dropped from both count sides. -/
theorem executed_counts_and_net_pnl (trades : List Trade) :
    netPnL trades = grossProfit trades - grossLoss trades
      ∧ ((∀ t ∈ executedTrades trades, t.pnl ≠ 0) →
          (executedTrades trades).length
            = (winningTrades trades).length + (losingTrades trades).length) := by
  constructor
  · have := sumPnl_sign_split (executedTrades trades)
    simp only [netPnL, grossProfit, grossLoss, winningTrades, losingTrades]
    omega
  · intro h
    exact length_filter_sign_split (executedTrades trades) h

/-- The trade list of the claim C1 witness: a winning and a losing executed
trade plus a non-executed zero-P&L one. -/
def sampleTrades : List Trade :=
  [⟨"BTC", "SMA_Crossover", "Executed", 5⟩,
   ⟨"ETH", "RSI", "Executed", -3⟩,
   ⟨"SOL", "MACD", "Pending", 0⟩]

/-- Witness for the amended claim C1 at `sampleTrades`: the netPnL identity
holds there, the no-zero-executed-P&L hypothesis of the count identity is
satisfied there, and the count identity follows. -/
theorem executed_counts_and_net_pnl_witness :
    netPnL sampleTrades = grossProfit sampleTrades - grossLoss sampleTrades
      ∧ (∀ t ∈ executedTrades sampleTrades, t.pnl ≠ 0)
      ∧ (executedTrades sampleTrades).length
          = (winningTrades sampleTrades).length
            + (losingTrades sampleTrades).length :=
  ⟨(executed_counts_and_net_pnl sampleTrades).1, by decide,
   (executed_counts_and_net_pnl sampleTrades).2 (by decide)⟩

/-- Claim C10: the trade-history filter is a pointwise conjunction with
`All` as identity — a trade is kept by `filteredTrades` iff it is in the
list and, for each of the coin, strategy and status filters, the filter is
`All` or matches the trade's field; with all three filters at `All` the
filtered list is the input list unchanged. -/
theorem filteredTrades_conjunction_all_identity :
    (∀ (f : Filters) (ts : List Trade) (t : Trade),
        t ∈ filteredTrades f ts ↔
          t ∈ ts ∧ (f.coin = "All" ∨ t.coin = f.coin)
            ∧ (f.strategy = "All" ∨ t.strategy = f.strategy)
            ∧ (f.status = "All" ∨ t.status = f.status))
    ∧ ∀ ts : List Trade, filteredTrades allFilters ts = ts := by
  have hpass : ∀ (f : Filters) (t : Trade),
      tradePassesFilters f t = true ↔
        (f.coin = "All" ∨ t.coin = f.coin)
          ∧ (f.strategy = "All" ∨ t.strategy = f.strategy)
          ∧ (f.status = "All" ∨ t.status = f.status) := by
    intro f t
    unfold tradePassesFilters
    split_ifs with h1 h2 h3 <;>
      simp only [not_and_or, not_not] at * <;> tauto
  constructor
  · intro f ts t
    rw [filteredTrades, List.mem_filter, hpass]
  · intro ts
    apply List.filter_eq_self.mpr
    intro t _
    exact (hpass allFilters t).mpr (by simp [allFilters])

/-! ## Backtest results and the best strategy
    (src/frontend/src/components/dashboard/OptimizationDashboard.tsx,
     src/unnamed/part_002) -/

/-- One row of the backtest results table; `sharpe` is only ever compared,
so it is embedded as `Int`. `ret` stands for the source's `return` field,
which is a keyword here. -/
structure BacktestResult where
  strategy : String
  coin : String
  sharpe : Int
  ret : Int
deriving DecidableEq, Repr

/-- The reducer `(prev, current) => (prev.sharpe > current.sharpe) ? prev :
current` of the `bestStrategy` computation (OptimizationDashboard lines
22‑24, part_002 lines 160‑162). On a tie it keeps `current`. -/
def bestStep (prev current : BacktestResult) : BacktestResult :=
  if current.sharpe < prev.sharpe then prev else current

/-- `results.reduce(bestStep)`: JavaScript `reduce` without an initial
value seeds with the first element and folds left over the rest; part_002
guards the empty list, which is `none` here. -/
def bestStrategy : List BacktestResult → Option BacktestResult
  | [] => none
  | x :: xs => some (xs.foldl bestStep x)

lemma bestStep_mem (p c : BacktestResult) : bestStep p c = p ∨ bestStep p c = c := by
  unfold bestStep; split_ifs <;> simp

lemma le_bestStep_left (p c : BacktestResult) : p.sharpe ≤ (bestStep p c).sharpe := by
  unfold bestStep; split_ifs with h
  · exact le_rfl
  · exact le_of_not_lt h

lemma le_bestStep_right (p c : BacktestResult) : c.sharpe ≤ (bestStep p c).sharpe := by
  unfold bestStep; split_ifs with h
  · exact h.le
  · exact le_rfl


lemma foldl_bestStep_mem : ∀ (xs : List BacktestResult) (x : BacktestResult),
    xs.foldl bestStep x ∈ x :: xs := by
  intro xs
  induction xs with
  | nil => intro x; simp
  | cons y ys ih =>
    intro x
    rw [List.foldl_cons]
    rcases List.mem_cons.mp (ih (bestStep x y)) with h' | h'
    · rw [h']
      rcases bestStep_mem x y with he | he <;> rw [he] <;> simp
    · simp [h']

lemma foldl_bestStep_max : ∀ (xs : List BacktestResult) (x y : BacktestResult),
    y ∈ x :: xs → y.sharpe ≤ (xs.foldl bestStep x).sharpe := by
  intro xs
  induction xs with
  | nil => intro x y hy; simp at hy; simp [hy]
  | cons z zs ih =>
    intro x y hy
    rw [List.foldl_cons]
    rcases List.mem_cons.mp hy with h | h
    · rw [h]
      exact le_trans (le_bestStep_left x z) (ih _ _ (List.mem_cons_self _ _))
    · rcases List.mem_cons.mp h with h' | h'
      · rw [h']
        exact le_trans (le_bestStep_right x z) (ih _ _ (List.mem_cons_self _ _))
      · exact ih (bestStep x z) y (List.mem_cons_of_mem _ h')

lemma foldl_bestStep_last : ∀ (xs : List BacktestResult) (x : BacktestResult),
    ∃ l₁ l₂, x :: xs = l₁ ++ (xs.foldl bestStep x) :: l₂
      ∧ ∀ y ∈ l₂, y.sharpe < (xs.foldl bestStep x).sharpe := by
  intro xs
  induction xs with
  | nil => intro x; exact ⟨[], [], by simp⟩
  | cons z zs ih =>
    intro x
    rw [List.foldl_cons]
    obtain ⟨m₁, m₂, hm, hlt⟩ := ih (bestStep x z)
    by_cases hc : z.sharpe < x.sharpe
    · have hb : bestStep x z = x := by simp [bestStep, hc]
      rw [hb] at hm hlt ⊢
      cases m₁ with
      | nil =>
        simp only [List.nil_append] at hm
        injection hm with h1 h2
        refine ⟨[], z :: m₂, ?_, ?_⟩
        · simp [← h1, ← h2]
        · intro y hy
          rcases List.mem_cons.mp hy with h | h
          · rw [h, ← h1]; exact hc
          · exact hlt y h
      | cons w m₁ =>
        injection hm with h1 h2
        refine ⟨x :: z :: m₁, m₂, ?_, hlt⟩
        conv_lhs => rw [h2]
        simp
    · have hb : bestStep x z = z := by simp [bestStep, hc]
      rw [hb] at hm hlt ⊢
      exact ⟨x :: m₁, m₂, by simp [hm], hlt⟩

/-- Claim C9: for a non-empty results list, `bestStrategy` returns an
element of the list whose `sharpe` is greatest, and among the elements
attaining the maximum it is the last one in list order (everything after
it is strictly below it). -/
theorem bestStrategy_is_last_max (l : List BacktestResult) (b : BacktestResult)
    (h : bestStrategy l = some b) :
    b ∈ l ∧ (∀ y ∈ l, y.sharpe ≤ b.sharpe)
      ∧ ∃ l₁ l₂, l = l₁ ++ b :: l₂ ∧ ∀ y ∈ l₂, y.sharpe < b.sharpe := by
  match l, h with
  | x :: xs, h =>
    have hb : xs.foldl bestStep x = b := by
      simpa [bestStrategy] using h
    refine ⟨hb ▸ foldl_bestStep_mem xs x, ?_, hb ▸ foldl_bestStep_last xs x⟩
    intro y hy
    exact hb ▸ foldl_bestStep_max xs x y hy

/-- Witness for claim C9 at a list with a tie on the maximal sharpe: the
reducer picks the later of the two tied rows. -/
theorem bestStrategy_is_last_max_witness :
    bestStrategy
        [⟨"SMA_Crossover", "BTC", 2, 10⟩,
         ⟨"Momentum", "ETH", 1, 4⟩,
         ⟨"RSI", "SOL", 2, 7⟩]
      = some ⟨"RSI", "SOL", 2, 7⟩
    ∧ ((⟨"RSI", "SOL", 2, 7⟩ : BacktestResult) ∈
        [⟨"SMA_Crossover", "BTC", 2, 10⟩,
         ⟨"Momentum", "ETH", 1, 4⟩,
         ⟨"RSI", "SOL", 2, 7⟩]
      ∧ (∀ y ∈ [⟨"SMA_Crossover", "BTC", 2, 10⟩,
                ⟨"Momentum", "ETH", 1, 4⟩,
                (⟨"RSI", "SOL", 2, 7⟩ : BacktestResult)],
            y.sharpe ≤ (⟨"RSI", "SOL", 2, 7⟩ : BacktestResult).sharpe)
      ∧ ∃ l₁ l₂,
          [⟨"SMA_Crossover", "BTC", 2, 10⟩,
           ⟨"Momentum", "ETH", 1, 4⟩,
           (⟨"RSI", "SOL", 2, 7⟩ : BacktestResult)] = l₁ ++ ⟨"RSI", "SOL", 2, 7⟩ :: l₂
            ∧ ∀ y ∈ l₂, y.sharpe < (⟨"RSI", "SOL", 2, 7⟩ : BacktestResult).sharpe) :=
  ⟨rfl,
   bestStrategy_is_last_max
     [⟨"SMA_Crossover", "BTC", 2, 10⟩,
      ⟨"Momentum", "ETH", 1, 4⟩,
      ⟨"RSI", "SOL", 2, 7⟩]
     ⟨"RSI", "SOL", 2, 7⟩ rfl⟩

/-! ## Backtest submission guards (src/unnamed/part_002, handleRunBacktest) -/

/-- A date field of the backtest form as the handler observes it: the empty
string, a non-empty string the browser's Date parser rejects (`getTime()`
is NaN), or one it parses to a timestamp. The parser itself is an external
collaborator, so only its outcome is embedded. -/
inductive DateInput
  | emptyStr
  | unparsable
  | parsed (t : Int)
deriving DecidableEq, Repr

/-- `!fromDate` in the handler: false exactly for the empty string. -/
def datePresent : DateInput → Bool
  | .emptyStr => false
  | .unparsable => true
  | .parsed _ => true

/-- `new Date(s).getTime()` with NaN embedded as `none`. -/
def dateTime : DateInput → Option Int
  | .parsed t => some t
  | _ => none

/-- The component state the guards read (part_002 lines 14, 22‑23). -/
structure BacktestForm where
  isFileUploaded : Bool
  fromDate : DateInput
  toDate : DateInput
deriving DecidableEq, Repr

/-- The component state the claim tracks (`results`, `hasResults`). -/
structure OptState where
  results : List BacktestResult
  hasResults : Bool
deriving DecidableEq, Repr

/-- Outcome of the `POST /api/backtest/run` request as the handler branches
on it (part_002 lines 123‑153): network error, HTTP error, HTTP ok with a
well-formed `results` array, or HTTP ok with a malformed body. -/
inductive ServerOutcome
  | netError
  | httpError
  | okWithResults (rs : List BacktestResult)
  | okMalformed
deriving DecidableEq, Repr

/-- `handleRunBacktest` (part_002 lines 96‑157) as a transformer of the
`(results, hasResults)` state, also reporting whether the fetch was
issued. The four guards are in source order: no file uploaded; an empty
date field; an unparseable date; From strictly after To. Each guard alerts
and returns without touching `results`/`hasResults`. Past the guards the
handler clears `hasResults`, sends the request, and on an ok response
stores the parsed results (or the mock fallback `mock`, standing for
`generateBacktestResults()`) and sets `hasResults`. -/
def handleRunBacktest (f : BacktestForm) (st : OptState) (srv : ServerOutcome)
    (mock : List BacktestResult) : OptState × Bool :=
  if !f.isFileUploaded then (st, false)
  else if !(datePresent f.fromDate) || !(datePresent f.toDate) then (st, false)
  else
    match dateTime f.fromDate, dateTime f.toDate with
    | none, _ => (st, false)
    | some _, none => (st, false)
    | some s, some e =>
      if e < s then (st, false)
      else
        match srv with
        | .okWithResults rs => (⟨rs, true⟩, true)
        | .okMalformed => (⟨mock, true⟩, true)
        | .httpError => (⟨st.results, false⟩, true)
        | .netError => (⟨st.results, false⟩, true)

/-- The claim's precondition, written as its sentence reads: a CSV has been
uploaded, both date fields are non-empty and parseable, and From is not
strictly after To. -/
def backtestPreconds (f : BacktestForm) : Bool :=
  f.isFileUploaded && datePresent f.fromDate && datePresent f.toDate
    && (match dateTime f.fromDate, dateTime f.toDate with
        | some s, some e => decide (s ≤ e)
        | _, _ => false)

/-- The post-guard body of the handler: `hasResults` is cleared before the
fetch and restored to `true` only on an ok response. -/
def backtestRequestResult (st : OptState) (srv : ServerOutcome)
    (mock : List BacktestResult) : OptState :=
  match srv with
  | .okWithResults rs => ⟨rs, true⟩
  | .okMalformed => ⟨mock, true⟩
  | .httpError => ⟨st.results, false⟩
  | .netError => ⟨st.results, false⟩

/-- Claim C8: `handleRunBacktest` is guarded and atomic on error — whenever
the upload/date preconditions fail it issues no request and returns the
`(results, hasResults)` state unchanged, and it issues the request exactly
when all preconditions hold. -/
theorem handleRunBacktest_guarded :
    ∀ (f : BacktestForm) (st : OptState) (srv : ServerOutcome)
      (mock : List BacktestResult),
      handleRunBacktest f st srv mock =
        if backtestPreconds f then (backtestRequestResult st srv mock, true)
        else (st, false) := by
  intro f st srv mock
  obtain ⟨up, fd, td⟩ := f
  cases up <;> cases fd <;> cases td <;>
    simp only [handleRunBacktest, backtestPreconds, backtestRequestResult,
      datePresent, dateTime, Bool.not_true, Bool.not_false, Bool.false_and,
      Bool.true_and, Bool.and_false, Bool.and_true, Bool.or_true,
      Bool.true_or, Bool.false_or, if_true, if_false, Bool.false_eq_true,
      reduceIte] <;>
    first
      | rfl
      | (rename_i s e
         by_cases hse : e < s
         · simp [hse, not_le.mpr hse]
         · simp only [if_neg hse]
           simp [le_of_not_lt hse]
           cases srv <;> rfl)

/-! ## API client control functions (src/frontend/src/api/apiClient.ts) -/

/-- `res.json()` as the client observes it: either the body parses to a
value or the promise rejects. -/
inductive JsonBody (α : Type)
  | malformed
  | value (v : α)
deriving DecidableEq, Repr

/-- One `fetch` as the client observes it: the promise rejects (network or
server unreachable), or a response arrives carrying its `ok` flag and a
body. -/
inductive FetchOutcome (α : Type)
  | netError
  | response (ok : Bool) (body : JsonBody α)
deriving DecidableEq, Repr

/-- Exception-style semantics of awaiting `res.json()`. -/
def jsonStep {α : Type} : JsonBody α → Except Unit α
  | .malformed => .error ()
  | .value v => .ok v

/-- A JavaScript `try { body } catch { handler }` whose handler returns
normally: an exceptional body is replaced by the handler's value. -/
def tryCatchJs {α : Type} (body : Except Unit α) (handler : Unit → Except Unit α) :
    Except Unit α :=
  match body with
  | .ok v => .ok v
  | .error e => handler e

/-- Body of `registerStrategy` (apiClient.ts lines 36‑48) before the catch:
`fetch` then `return await res.json()`; the `ok` flag is not inspected. -/
def registerStrategyBody {α : Type} : FetchOutcome α → Except Unit (Option α)
  | .netError => .error ()
  | .response _ body => (jsonStep body).map some

/-- `registerStrategy`: the body under `try`, with `catch` returning null. -/
def registerStrategy {α : Type} (o : FetchOutcome α) : Except Unit (Option α) :=
  tryCatchJs (registerStrategyBody o) (fun _ => .ok none)

/-- Body of `unregisterStrategy` (apiClient.ts lines 50‑62): same shape as
`registerStrategy` with a different URL and payload, which do not affect
the result semantics. -/
def unregisterStrategyBody {α : Type} : FetchOutcome α → Except Unit (Option α)
  | .netError => .error ()
  | .response _ body => (jsonStep body).map some

/-- `unregisterStrategy`: body under `try`, `catch` returning null. -/
def unregisterStrategy {α : Type} (o : FetchOutcome α) : Except Unit (Option α) :=
  tryCatchJs (unregisterStrategyBody o) (fun _ => .ok none)

/-- Body of `startEngine` (apiClient.ts lines 64‑73). -/
def startEngineBody {α : Type} : FetchOutcome α → Except Unit (Option α)
  | .netError => .error ()
  | .response _ body => (jsonStep body).map some

/-- `startEngine`: body under `try`, `catch` returning null. -/
def startEngine {α : Type} (o : FetchOutcome α) : Except Unit (Option α) :=
  tryCatchJs (startEngineBody o) (fun _ => .ok none)

/-- Body of `stopEngine` (apiClient.ts lines 75‑83). -/
def stopEngineBody {α : Type} : FetchOutcome α → Except Unit (Option α)
  | .netError => .error ()
  | .response _ body => (jsonStep body).map some

/-- `stopEngine`: body under `try`, `catch` returning null. -/
def stopEngine {α : Type} (o : FetchOutcome α) : Except Unit (Option α) :=
  tryCatchJs (stopEngineBody o) (fun _ => .ok none)

/-- The value the claim says each control function delivers: the parsed
response body when one arrived and parsed, otherwise null. -/
def parsedOrNull {α : Type} : FetchOutcome α → Option α
  | .response _ (.value v) => some v
  | _ => none

/-- Claim C4: each client control function — `startEngine`, `stopEngine`,
`registerStrategy`, `unregisterStrategy` — terminates normally on every
fetch outcome, including network and server failure, returning the parsed
response value or null and never propagating an exception to its caller
(the result is always `.ok`). -/
theorem apiControl_never_throws :
    ∀ (α : Type) (o : FetchOutcome α),
      registerStrategy o = .ok (parsedOrNull o)
        ∧ unregisterStrategy o = .ok (parsedOrNull o)
        ∧ startEngine o = .ok (parsedOrNull o)
        ∧ stopEngine o = .ok (parsedOrNull o) := by
  intro α o
  match o with
  | .netError => exact ⟨rfl, rfl, rfl, rfl⟩
  | .response ok .malformed => exact ⟨rfl, rfl, rfl, rfl⟩
  | .response ok (.value v) => exact ⟨rfl, rfl, rfl, rfl⟩

/-! ## WebSocket reconnect backoff
    (src/frontend/src/hooks/useWebSocketManager.tsx, WebSocketProvider) -/

/-- The delay update in `ws.onclose` (useWebSocketManager.tsx line 55):
`Math.min(30000, (reconnectRef.current || 1000) * 2 || 1000)`. Both `||`
fallbacks are kept: the inner one replaces a zero delay by 1000 before
doubling, the outer one can never fire but is carried over faithfully. -/
def nextReconnectDelay (d : Nat) : Nat :=
  let base := if d = 0 then 1000 else d
  let doubled := base * 2
  min 30000 (if doubled = 0 then 1000 else doubled)

/-- The provider state the reconnect logic touches: `reconnectRef.current`,
the `connected` flag, and whether a `setTimeout(connect, …)` is pending. -/
structure WsState where
  delay : Nat
  connected : Bool
  pendingReconnect : Bool
deriving DecidableEq, Repr

/-- The provider right after mounting: delay 0, not yet connected. -/
def initWsState : WsState := ⟨0, false, false⟩

/-- `ws.onopen` (lines 32‑36): reset the backoff, mark connected. -/
def onOpen (_ws : WsState) : WsState :=
  { delay := 0, connected := true, pendingReconnect := false }

/-- `ws.onclose` (lines 51‑57): mark disconnected, grow the backoff delay,
and schedule a reconnect — unconditionally, on every close. -/
def onClose (s : WsState) : WsState :=
  { delay := nextReconnectDelay s.delay, connected := false,
    pendingReconnect := true }

/-- The claim's stop property: after some number of consecutive connection
failures the provider stops scheduling reconnects. -/
def wsStopsEventually : Prop :=
  ∃ n, ((onClose)^[n + 1] initWsState).pendingReconnect = false

/-- Claim C6 (counterexample): the reconnect logic has no attempt bound and
no Error/stopped state — every `onclose` schedules another reconnect, so
there is no number of consecutive failures after which the provider stops
retrying; the claim's bounded-retry property is false. -/
theorem ws_reconnect_never_stops : ¬ wsStopsEventually := by
  rintro ⟨n, h⟩
  rw [Function.iterate_succ_apply'] at h
  simp [onClose] at h

lemma nextReconnectDelay_min (k : Nat) (hk : 0 < k) :
    nextReconnectDelay (min 30000 k) = min 30000 (2 * k) := by
  have h1 : ¬ (min 30000 k = 0) := by omega
  have h2 : ¬ (min 30000 k * 2 = 0) := by omega
  simp only [nextReconnectDelay, if_neg h1, if_neg h2]
  omega

/-- Claim C6 (amended): on each consecutive failure the reconnect delay is
`min 30000 (1000·2^(n+1))` — it doubles every time until it saturates at
the 30000 ms cap — a successful open resets it to 0, and the provider
keeps scheduling reconnects without bound: it never enters an error state
and never stops retrying (only unmounting stops it). -/
theorem ws_backoff_doubles_to_cap :
    (∀ n : Nat,
        ((onClose)^[n + 1] initWsState).delay = min 30000 (1000 * 2 ^ (n + 1))
          ∧ ((onClose)^[n + 1] initWsState).pendingReconnect = true
          ∧ ((onClose)^[n + 1] initWsState).connected = false)
      ∧ (∀ s : WsState, (onOpen s).delay = 0 ∧ (onClose s).pendingReconnect = true) := by
  constructor
  · intro n
    refine ⟨?_, ?_, ?_⟩
    · induction n with
      | zero =>
        simp [Function.iterate_one, onClose, initWsState, nextReconnectDelay]
      | succ m ih =>
        rw [Function.iterate_succ_apply']
        show nextReconnectDelay ((onClose)^[m + 1] initWsState).delay
          = min 30000 (1000 * 2 ^ (m + 1 + 1))
        rw [ih, nextReconnectDelay_min (1000 * 2 ^ (m + 1))
          (by positivity)]
        congr 1
        ring
    · rw [Function.iterate_succ_apply']; rfl
    · rw [Function.iterate_succ_apply']; rfl
  · intro s
    exact ⟨rfl, rfl⟩

/-! ## The Shared State Store (engine core)

The backend engine's Python sources are not part of this tree — only its
documentation — so the store is modelled from the specification (§3, §4.4,
§8) and every claim settled against it is marked as spec-modelled. -/

/-- Modelled from the spec: an order action, `action ∈ {Buy, Sell}` (§3,
OrderIntent). -/
inductive OrderAction
  | Buy
  | Sell
deriving DecidableEq, Repr

/-- Modelled from the spec: the mutable scalars of one StrategyInstance —
live position size, average entry price — plus its accumulated realized
P&L (§3, §4.4). Quantities and prices are exact rationals. -/
structure StratState where
  position : ℚ
  avgEntry : ℚ
  realized : ℚ
deriving DecidableEq, Repr

/-- A freshly registered instance: zero position and metrics (§4.5). -/
def initStrat : StratState := ⟨0, 0, 0⟩

/-- Modelled from the spec: the position/P&L step of `recordTrade` (§4.4):
a Buy increases the position and re-averages the entry price with no
realized P&L; a Sell closes or reduces the position and realizes
`(exit − entry) × quantity` for the long position being closed. Returns
the updated instance state and the trade's realized P&L. -/
def applyTrade (s : StratState) (a : OrderAction) (price qty : ℚ) :
    StratState × ℚ :=
  match a with
  | .Buy =>
    let newPos := s.position + qty
    let newAvg := if newPos = 0 then 0
      else (s.avgEntry * s.position + price * qty) / newPos
    (⟨newPos, newAvg, s.realized⟩, 0)
  | .Sell =>
    let pnl := (price - s.avgEntry) * qty
    (⟨s.position - qty, s.avgEntry, s.realized + pnl⟩, pnl)

/-- Modelled from the spec: one trade submitted to the store —
`(strategyId, action, price, quantity)` (§3, TradeRecord inputs). -/
structure TradeReq where
  strategyId : String
  action : OrderAction
  price : ℚ
  qty : ℚ
deriving DecidableEq, Repr

/-- Modelled from the spec: the Shared State Store's contents — the
per-strategy instance states, the global trade counter, and the
append-only TradeRecord history kept as `(strategyId, realizedPnL)` (§3,
§4.4). -/
structure EngineState where
  stratStates : List (String × StratState)
  totalTrades : Nat
  records : List (String × ℚ)
deriving DecidableEq, Repr

/-- The store before any trade. -/
def initEngine : EngineState := ⟨[], 0, []⟩

/-- Lookup of a strategy's instance state, a fresh one if absent. -/
def lookupStrat (l : List (String × StratState)) (id : String) : StratState :=
  match l with
  | [] => initStrat
  | (k, v) :: rest => if k = id then v else lookupStrat rest id

/-- Write back a strategy's instance state. -/
def setStrat (l : List (String × StratState)) (id : String) (v : StratState) :
    List (String × StratState) :=
  match l with
  | [] => [(id, v)]
  | (k, w) :: rest =>
    if k = id then (k, v) :: rest else (k, w) :: setStrat rest id v

/-- Modelled from the spec: `recordTrade` (§4.4) — inside one exclusive
section it updates the owning instance's position/entry/realized P&L,
bumps the global trade count, and appends the TradeRecord. The lock makes
the whole update one atomic step, which is how it enters the scheduling
model below. -/
def recordTrade (st : EngineState) (r : TradeReq) : EngineState :=
  let s := lookupStrat st.stratStates r.strategyId
  let res := applyTrade s r.action r.price r.qty
  { stratStates := setStrat st.stratStates r.strategyId res.1,
    totalTrades := st.totalTrades + 1,
    records := st.records ++ [(r.strategyId, res.2)] }

/-- The per-record P&L formula of the frontend's trade generator
(src/unnamed/part_006, `generateTradeHistory`):
`(currentPrice − executionPrice) × quantity`, signed positively for a BUY
and negatively for a SELL. -/
def pnlFormula (isBuy : Bool) (executionPrice currentPrice quantity : ℚ) : ℚ :=
  (currentPrice - executionPrice) * quantity * (if isBuy then 1 else -1)

/-- Claim C5: a Buy at 45000 quantity 1 followed by a Sell at 45500
quantity 1 on the same strategy instance realizes exactly
`(45500 − 45000) × 1 = 500` for that instance, the global trade count
after the pair is 2, and in general the Sell branch realizes
`(exit − entry) × quantity`; the frontend's display formula agrees on the
same pair. -/
theorem recordTrade_buy_sell_scenario :
    (lookupStrat (recordTrade (recordTrade initEngine
        ⟨"BTC_SMA", .Buy, 45000, 1⟩) ⟨"BTC_SMA", .Sell, 45500, 1⟩).stratStates
        "BTC_SMA").realized = 500
    ∧ (recordTrade (recordTrade initEngine
        ⟨"BTC_SMA", .Buy, 45000, 1⟩) ⟨"BTC_SMA", .Sell, 45500, 1⟩).totalTrades = 2
    ∧ (recordTrade (recordTrade initEngine
        ⟨"BTC_SMA", .Buy, 45000, 1⟩) ⟨"BTC_SMA", .Sell, 45500, 1⟩).records
      = [("BTC_SMA", 0), ("BTC_SMA", 500)]
    ∧ (∀ (s : StratState) (p q : ℚ),
        (applyTrade s .Sell p q).2 = (p - s.avgEntry) * q)
    ∧ pnlFormula true 45000 45500 1 = 500 := by
  refine ⟨?_, rfl, ?_, fun s p q => rfl, ?_⟩ <;> norm_num [recordTrade,
    initEngine, lookupStrat, setStrat, applyTrade, initStrat, pnlFormula]

/-! ## Concurrent submissions to the store (claim C2)

Modelled from the spec: writes to the store are mutually exclusive
(§4.4, §5), so each `recordTrade` is one atomic step and a concurrent
execution of W workers is an arbitrary interleaving of their submission
sequences; a snapshot reader can observe the store exactly at the step
boundaries. -/

/-- A concurrent execution state: the store plus each worker's remaining
submission list. -/
structure ConcState where
  store : EngineState
  work : List (List TradeReq)
deriving DecidableEq, Repr

/-- One scheduling step: worker `i` (if it exists and has work left)
performs its next `recordTrade` atomically. Any other index is a stutter,
so a schedule can be an arbitrary index sequence. -/
def concStep (s : ConcState) (i : Nat) : ConcState :=
  match s.work[i]? with
  | some (t :: rest) => ⟨recordTrade s.store t, s.work.set i rest⟩
  | _ => s

/-- Run an interleaving, given as the sequence of chosen worker indices. -/
def runSched (s : ConcState) (sched : List Nat) : ConcState :=
  sched.foldl concStep s

/-- Number of submissions not yet applied. -/
def pendingCount (work : List (List TradeReq)) : Nat :=
  match work with
  | [] => 0
  | w :: ws => w.length + pendingCount ws

/-- A store state is consistent when its trade history length matches its
trade counter — what a snapshot reader checks. -/
def storeConsistent (e : EngineState) : Prop :=
  e.records.length = e.totalTrades

lemma pendingCount_set (work : List (List TradeReq)) :
    ∀ (i : Nat) (t : TradeReq) (rest : List TradeReq),
      work[i]? = some (t :: rest) →
      pendingCount (work.set i rest) + 1 = pendingCount work := by
  induction work with
  | nil => intro i t rest h; simp at h
  | cons w ws ih =>
    intro i t rest h
    cases i with
    | zero =>
      simp only [List.getElem?_cons_zero] at h
      injection h with h
      simp [h, pendingCount]
      omega
    | succ j =>
      simp only [List.getElem?_cons_succ] at h
      simp only [List.set, pendingCount]
      rw [← ih j t rest h]
      omega

lemma concStep_budget (s : ConcState) (i : Nat) :
    (concStep s i).store.totalTrades + pendingCount (concStep s i).work
      = s.store.totalTrades + pendingCount s.work := by
  cases hg : s.work[i]? with
  | none => simp [concStep, hg]
  | some w =>
    cases w with
    | nil => simp [concStep, hg]
    | cons t rest =>
      simp only [concStep, hg, recordTrade]
      have hset := pendingCount_set s.work i t rest hg
      omega

lemma runSched_budget (sched : List Nat) :
    ∀ s : ConcState,
      (runSched s sched).store.totalTrades + pendingCount (runSched s sched).work
        = s.store.totalTrades + pendingCount s.work := by
  induction sched with
  | nil => intro s; rfl
  | cons i sched ih =>
    intro s
    show (runSched (concStep s i) sched).store.totalTrades
        + pendingCount (runSched (concStep s i) sched).work
      = s.store.totalTrades + pendingCount s.work
    rw [ih (concStep s i), concStep_budget]

lemma concStep_consistent (s : ConcState) (i : Nat)
    (h : storeConsistent s.store) : storeConsistent (concStep s i).store := by
  cases hg : s.work[i]? with
  | none => simpa [concStep, hg] using h
  | some w =>
    cases w with
    | nil => simpa [concStep, hg] using h
    | cons t rest =>
      unfold storeConsistent at h ⊢
      simp [concStep, hg, recordTrade]
      omega

lemma runSched_consistent (sched : List Nat) :
    ∀ s : ConcState, storeConsistent s.store →
      storeConsistent (runSched s sched).store := by
  induction sched with
  | nil => intro s h; exact h
  | cons i sched ih =>
    intro s h
    exact ih (concStep s i) (concStep_consistent s i h)

/-- Claim C2: for W ≥ 2 workers whose submission lists together hold T
trades, any interleaving that drains all the worklists leaves the store
with exactly T TradeRecords and a trade count of exactly T — no update is
lost — and at every step boundary (the only points the lock lets a
snapshot reader observe) the history length matches the counter, so no
write is ever partially visible. -/
theorem store_no_lost_updates (work : List (List TradeReq)) (sched : List Nat)
    (hW : 2 ≤ work.length)
    (hdone : pendingCount (runSched ⟨initEngine, work⟩ sched).work = 0) :
    (runSched ⟨initEngine, work⟩ sched).store.totalTrades = pendingCount work
      ∧ (runSched ⟨initEngine, work⟩ sched).store.records.length = pendingCount work
      ∧ ∀ pre : List Nat,
          storeConsistent (runSched ⟨initEngine, work⟩ pre).store := by
  have hbudget : (runSched ⟨initEngine, work⟩ sched).store.totalTrades
      + pendingCount (runSched ⟨initEngine, work⟩ sched).work
      = pendingCount work := by
    have h := runSched_budget sched ⟨initEngine, work⟩
    simpa [initEngine] using h
  have hcons : ∀ pre : List Nat,
      storeConsistent (runSched ⟨initEngine, work⟩ pre).store := by
    intro pre
    exact runSched_consistent pre ⟨initEngine, work⟩ rfl
  have htot : (runSched ⟨initEngine, work⟩ sched).store.totalTrades
      = pendingCount work := by
    omega
  refine ⟨htot, ?_, hcons⟩
  have := hcons sched
  unfold storeConsistent at this
  omega

/-- Witness for claim C2: two workers with one trade each, interleaved
second-first; the store ends with both records and count 2. -/
theorem store_no_lost_updates_witness :
    2 ≤ ([[⟨"BTC_SMA", .Buy, 100, 1⟩], [⟨"ETH_RSI", .Sell, 200, 1⟩]] :
          List (List TradeReq)).length
    ∧ pendingCount (runSched
        ⟨initEngine, [[⟨"BTC_SMA", .Buy, 100, 1⟩], [⟨"ETH_RSI", .Sell, 200, 1⟩]]⟩
        [1, 0]).work = 0
    ∧ ((runSched
          ⟨initEngine, [[⟨"BTC_SMA", .Buy, 100, 1⟩], [⟨"ETH_RSI", .Sell, 200, 1⟩]]⟩
          [1, 0]).store.totalTrades
        = pendingCount [[⟨"BTC_SMA", .Buy, 100, 1⟩], [⟨"ETH_RSI", .Sell, 200, 1⟩]]
      ∧ (runSched
          ⟨initEngine, [[⟨"BTC_SMA", .Buy, 100, 1⟩], [⟨"ETH_RSI", .Sell, 200, 1⟩]]⟩
          [1, 0]).store.records.length
        = pendingCount [[⟨"BTC_SMA", .Buy, 100, 1⟩], [⟨"ETH_RSI", .Sell, 200, 1⟩]]
      ∧ ∀ pre : List Nat,
          storeConsistent (runSched
            ⟨initEngine, [[⟨"BTC_SMA", .Buy, 100, 1⟩], [⟨"ETH_RSI", .Sell, 200, 1⟩]]⟩
            pre).store) :=
  ⟨by decide, by decide,
   store_no_lost_updates
     [[⟨"BTC_SMA", .Buy, 100, 1⟩], [⟨"ETH_RSI", .Sell, 200, 1⟩]]
     [1, 0] (by decide) (by decide)⟩

/-! ## Ingestion pipeline and bounded queue (claim C3)

Modelled from the spec: the bounded queue of capacity C between the
Ingestion Pipeline (producer) and the Dispatcher (consumer) — push blocks
when the queue is full instead of dropping the tick, pop blocks when
empty (§4.1, §5, §8). The pipeline's sources are not in this tree. -/

/-- Modelled from the spec: one immutable market-data observation (§3). -/
structure Tick where
  instrumentId : String
  price : ℚ
  volume : ℚ
  timestamp : Nat
deriving DecidableEq, Repr

/-- A producer/dispatcher system state: the ticks the source has yet to
hand over, the queue contents, and the ticks the dispatcher has taken. -/
structure PipeState where
  pending : List Tick
  queue : List Tick
  processed : List Tick
deriving DecidableEq, Repr

/-- Who gets to move at a scheduling point. -/
inductive PipeActor
  | produce
  | consume
deriving DecidableEq, Repr

/-- One scheduling step with queue capacity `C`: a producer step pushes
the next tick only when the queue holds fewer than `C` ticks — on a full
queue the push blocks, leaving the state unchanged and the tick still
pending, never dropping it; a consumer step pops the oldest tick (blocking,
i.e. stuttering, on an empty queue). -/
def pipeStep (C : Nat) (s : PipeState) : PipeActor → PipeState
  | .produce =>
    match s.pending with
    | [] => s
    | t :: rest =>
      if s.queue.length < C then ⟨rest, s.queue ++ [t], s.processed⟩ else s
  | .consume =>
    match s.queue with
    | [] => s
    | t :: rest => ⟨s.pending, rest, s.processed ++ [t]⟩

/-- Run a schedule of producer/consumer turns. -/
def runPipe (C : Nat) (s : PipeState) (steps : List PipeActor) : PipeState :=
  steps.foldl (pipeStep C) s

/-- The alternating produce/consume schedule that drains n ticks. -/
def drainSched : Nat → List PipeActor
  | 0 => []
  | n + 1 => .produce :: .consume :: drainSched n

lemma pipeStep_occupancy (C : Nat) (s : PipeState) (a : PipeActor)
    (h : s.queue.length ≤ C) : (pipeStep C s a).queue.length ≤ C := by
  cases a with
  | produce =>
    cases hp : s.pending with
    | nil => simpa [pipeStep, hp] using h
    | cons t rest =>
      by_cases hq : s.queue.length < C
      · simp [pipeStep, hp, hq]
        omega
      · simpa [pipeStep, hp, hq] using h
  | consume =>
    cases hq : s.queue with
    | nil => simpa [pipeStep, hq] using h
    | cons t rest =>
      simp [pipeStep, hq] at h ⊢
      omega

lemma runPipe_occupancy (C : Nat) (steps : List PipeActor) :
    ∀ s : PipeState, s.queue.length ≤ C →
      (runPipe C s steps).queue.length ≤ C := by
  induction steps with
  | nil => intro s h; exact h
  | cons a steps ih =>
    intro s h
    exact ih (pipeStep C s a) (pipeStep_occupancy C s a h)

lemma pipeStep_conserves (C : Nat) (s : PipeState) (a : PipeActor) :
    (pipeStep C s a).processed ++ (pipeStep C s a).queue
        ++ (pipeStep C s a).pending
      = s.processed ++ s.queue ++ s.pending := by
  cases a with
  | produce =>
    cases hp : s.pending with
    | nil => simp [pipeStep, hp]
    | cons t rest =>
      by_cases hq : s.queue.length < C
      · simp [pipeStep, hp, hq]
      · simp [pipeStep, hp, hq]
  | consume =>
    cases hq : s.queue with
    | nil => simp [pipeStep, hq]
    | cons t rest => simp [pipeStep, hq]

lemma runPipe_conserves (C : Nat) (steps : List PipeActor) :
    ∀ s : PipeState,
      (runPipe C s steps).processed ++ (runPipe C s steps).queue
          ++ (runPipe C s steps).pending
        = s.processed ++ s.queue ++ s.pending := by
  induction steps with
  | nil => intro s; rfl
  | cons a steps ih =>
    intro s
    show (runPipe C (pipeStep C s a) steps).processed
          ++ (runPipe C (pipeStep C s a) steps).queue
          ++ (runPipe C (pipeStep C s a) steps).pending
      = s.processed ++ s.queue ++ s.pending
    rw [ih (pipeStep C s a), pipeStep_conserves]

lemma runPipe_drains (C : Nat) (hC : 0 < C) :
    ∀ (ticks done : List Tick),
      runPipe C ⟨ticks, [], done⟩ (drainSched ticks.length)
        = ⟨[], [], done ++ ticks⟩ := by
  intro ticks
  induction ticks with
  | nil => intro done; simp [drainSched, runPipe]
  | cons t rest ih =>
    intro done
    show runPipe C ⟨t :: rest, [], done⟩
        (.produce :: .consume :: drainSched rest.length) = _
    have h1 : pipeStep C ⟨t :: rest, [], done⟩ .produce
        = ⟨rest, [t], done⟩ := by
      simp [pipeStep, hC]
    have h2 : pipeStep C ⟨rest, [t], done⟩ .consume
        = ⟨rest, [], done ++ [t]⟩ := by
      simp [pipeStep]
    show runPipe C (pipeStep C (pipeStep C ⟨t :: rest, [], done⟩ .produce)
        .consume) (drainSched rest.length) = _
    rw [h1, h2, ih (done ++ [t])]
    simp

/-- Claim C3: with queue capacity C, starting from an empty queue, the
occupancy never exceeds C under any schedule; the concatenation
processed ++ queue ++ pending is always exactly the produced tick
sequence, so no tick is ever silently discarded and order is preserved; a
push onto a full queue blocks (the state is unchanged and the tick stays
pending); and every produced tick is eventually considered — the
alternating schedule drains them all into `processed` in order. -/
theorem bounded_queue_backpressure (C : Nat) (ticks : List Tick)
    (steps : List PipeActor) (hC : 0 < C) :
    (runPipe C ⟨ticks, [], []⟩ steps).queue.length ≤ C
      ∧ (runPipe C ⟨ticks, [], []⟩ steps).processed
          ++ (runPipe C ⟨ticks, [], []⟩ steps).queue
          ++ (runPipe C ⟨ticks, [], []⟩ steps).pending = ticks
      ∧ (∀ s : PipeState, C ≤ s.queue.length → pipeStep C s .produce = s)
      ∧ runPipe C ⟨ticks, [], []⟩ (drainSched ticks.length)
          = ⟨[], [], ticks⟩ := by
  refine ⟨runPipe_occupancy C steps _ (by simp), ?_, ?_, ?_⟩
  · have h := runPipe_conserves C steps ⟨ticks, [], []⟩
    simpa using h
  · intro s hfull
    cases hp : s.pending with
    | nil => simp [pipeStep, hp]
    | cons t rest => simp [pipeStep, hp, not_lt.mpr hfull]
  · have h := runPipe_drains C hC ticks []
    simpa using h

/-- Witness for claim C3 at capacity 1 and a two-tick feed, with a
schedule that tries to push into the full queue. -/
theorem bounded_queue_backpressure_witness :
    0 < 1
    ∧ ((runPipe 1 ⟨[⟨"BTC", 45000, 1, 0⟩, ⟨"BTC", 45500, 1, 60⟩], [], []⟩
          [.produce, .produce, .consume, .produce, .consume]).queue.length ≤ 1
      ∧ (runPipe 1 ⟨[⟨"BTC", 45000, 1, 0⟩, ⟨"BTC", 45500, 1, 60⟩], [], []⟩
          [.produce, .produce, .consume, .produce, .consume]).processed
          ++ (runPipe 1 ⟨[⟨"BTC", 45000, 1, 0⟩, ⟨"BTC", 45500, 1, 60⟩], [], []⟩
          [.produce, .produce, .consume, .produce, .consume]).queue
          ++ (runPipe 1 ⟨[⟨"BTC", 45000, 1, 0⟩, ⟨"BTC", 45500, 1, 60⟩], [], []⟩
          [.produce, .produce, .consume, .produce, .consume]).pending
        = [⟨"BTC", 45000, 1, 0⟩, ⟨"BTC", 45500, 1, 60⟩]
      ∧ (∀ s : PipeState, 1 ≤ s.queue.length → pipeStep 1 s .produce = s)
      ∧ runPipe 1 ⟨[⟨"BTC", 45000, 1, 0⟩, ⟨"BTC", 45500, 1, 60⟩], [], []⟩
          (drainSched ([⟨"BTC", 45000, 1, 0⟩, ⟨"BTC", 45500, 1, 60⟩] :
            List Tick).length)
        = ⟨[], [], [⟨"BTC", 45000, 1, 0⟩, ⟨"BTC", 45500, 1, 60⟩]⟩) :=
  ⟨by decide,
   bounded_queue_backpressure 1
     [⟨"BTC", 45000, 1, 0⟩, ⟨"BTC", 45500, 1, 60⟩]
     [.produce, .produce, .consume, .produce, .consume] (by decide)⟩

/-! ## Worker-pool isolation of a failing strategy (claim C7)

Modelled from the spec: a strategy evaluation that throws is caught at the
worker boundary and converted to a no-op result plus an increment of that
strategy's own error counter; it does not crash the pool and the other
strategies' tasks for the tick batch run as if the failing strategy were
not registered (§4.3, §7, §8). The engine's Python sources are not in this
tree. -/

/-- Modelled from the spec: a registered strategy as the worker pool sees
it — its strategyId and its `evaluate(tick)` function, whose throw is
`Except.error` and whose normal result is an optional order intent. -/
structure StratRec where
  id : String
  evalFn : Tick → Except Unit (Option (OrderAction × ℚ))

/-- Modelled from the spec: one StrategyMetrics record — trade count,
per-strategy error counter, running P&L (§3, §7). -/
structure StratMetrics where
  trades : Nat
  errorCount : Nat
  realized : ℚ
deriving DecidableEq, Repr

/-- Metrics of a strategy with no activity yet. -/
def initMetrics : StratMetrics := ⟨0, 0, 0⟩

/-- Lookup of a strategy's metrics, zeroed if absent. -/
def lookupM (m : List (String × StratMetrics)) (id : String) : StratMetrics :=
  match m with
  | [] => initMetrics
  | (k, v) :: rest => if k = id then v else lookupM rest id

/-- Update one strategy's metrics in place (inserting it if absent). -/
def updateM (m : List (String × StratMetrics)) (id : String)
    (g : StratMetrics → StratMetrics) : List (String × StratMetrics) :=
  match m with
  | [] => [(id, g initMetrics)]
  | (k, v) :: rest =>
    if k = id then (k, g v) :: rest else (k, v) :: updateM rest id g

/-- Modelled from the spec: result collection for one strategy's
evaluation of a tick — a throw increments only that strategy's error
counter; an order intent records a trade (count and running P&L, signed by
the action) against that strategy; `none` leaves the metrics alone. -/
def processOne (t : Tick) (m : List (String × StratMetrics))
    (sr : StratRec) : List (String × StratMetrics) :=
  match sr.evalFn t with
  | .error _ => updateM m sr.id (fun x =>
      { x with errorCount := x.errorCount + 1 })
  | .ok none => m
  | .ok (some (a, q)) => updateM m sr.id (fun x =>
      { x with trades := x.trades + 1,
               realized := x.realized +
                 (match a with
                  | .Buy => -(q * t.price)
                  | .Sell => q * t.price) })

/-- One tick batch: every registered strategy is evaluated and collected. -/
def processBatch (t : Tick) (strats : List StratRec)
    (m : List (String × StratMetrics)) : List (String × StratMetrics) :=
  strats.foldl (processOne t) m

lemma lookupM_updateM_self (m : List (String × StratMetrics)) (id : String)
    (g : StratMetrics → StratMetrics) :
    lookupM (updateM m id g) id = g (lookupM m id) := by
  induction m with
  | nil => simp [updateM, lookupM]
  | cons kv rest ih =>
    obtain ⟨k, v⟩ := kv
    by_cases hk : k = id
    · simp [updateM, lookupM, hk]
    · simp [updateM, lookupM, hk, ih]

lemma lookupM_updateM_other (m : List (String × StratMetrics))
    (id id' : String) (g : StratMetrics → StratMetrics) (h : id' ≠ id) :
    lookupM (updateM m id g) id' = lookupM m id' := by
  have h' : id ≠ id' := fun he => h he.symm
  induction m with
  | nil => simp [updateM, lookupM, h']
  | cons kv rest ih =>
    obtain ⟨k, v⟩ := kv
    by_cases hk : k = id
    · subst hk
      simp [updateM, lookupM, h']
    · simp [updateM, lookupM, hk, ih]

lemma processOne_other (t : Tick) (m : List (String × StratMetrics))
    (sr : StratRec) (id' : String) (h : id' ≠ sr.id) :
    lookupM (processOne t m sr) id' = lookupM m id' := by
  unfold processOne
  cases sr.evalFn t with
  | error e => exact lookupM_updateM_other m sr.id id' _ h
  | ok r =>
    cases r with
    | none => rfl
    | some aq => exact lookupM_updateM_other m sr.id id' _ h

lemma processBatch_agree (t : Tick) (x : String) :
    ∀ (strats : List StratRec) (m₁ m₂ : List (String × StratMetrics)),
      x ∉ strats.map StratRec.id →
      (∀ id, id ≠ x → lookupM m₁ id = lookupM m₂ id) →
      ∀ id, id ≠ x →
        lookupM (processBatch t strats m₁) id
          = lookupM (processBatch t strats m₂) id := by
  intro strats
  induction strats with
  | nil => intro m₁ m₂ _ hagree id hid; exact hagree id hid
  | cons sr rest ih =>
    intro m₁ m₂ hx hagree id hid
    have hxsr : x ≠ sr.id := by
      intro he
      exact hx (by simp [he])
    have hxrest : x ∉ rest.map StratRec.id := by
      intro hmem
      exact hx (by simp [hmem])
    show lookupM (processBatch t rest (processOne t m₁ sr)) id
      = lookupM (processBatch t rest (processOne t m₂ sr)) id
    refine ih (processOne t m₁ sr) (processOne t m₂ sr) hxrest ?_ id hid
    intro id' hid'
    by_cases hsr : id' = sr.id
    · subst hsr
      unfold processOne
      cases sr.evalFn t with
      | error e =>
        rw [lookupM_updateM_self, lookupM_updateM_self,
          hagree _ (fun he => hxsr he.symm)]
      | ok r =>
        cases r with
        | none => exact hagree _ (fun he => hxsr he.symm)
        | some aq =>
          obtain ⟨a, q⟩ := aq
          rw [lookupM_updateM_self, lookupM_updateM_self,
            hagree _ (fun he => hxsr he.symm)]
    · rw [processOne_other t m₁ sr id' hsr, processOne_other t m₂ sr id' hsr]
      exact hagree id' hid'

lemma processBatch_untouched (t : Tick) (x : String) :
    ∀ (strats : List StratRec) (m : List (String × StratMetrics)),
      x ∉ strats.map StratRec.id →
      lookupM (processBatch t strats m) x = lookupM m x := by
  intro strats
  induction strats with
  | nil => intro m _; rfl
  | cons sr rest ih =>
    intro m hx
    have hxsr : x ≠ sr.id := by
      intro he
      exact hx (by simp [he])
    have hxrest : x ∉ rest.map StratRec.id := by
      intro hmem
      exact hx (by simp [hmem])
    show lookupM (processBatch t rest (processOne t m sr)) x = lookupM m x
    rw [ih (processOne t m sr) hxrest, processOne_other t m sr x hxsr]

/-- Claim C7: if the strategy `f` throws on tick `t` and no other
registered strategy shares its id, then running the batch with `f`
registered gives every other strategy exactly the metrics it gets when `f`
is not registered at all (the pool keeps processing the other tasks), and
`f`'s own entry changes only by incrementing its error counter — its trade
count and P&L fields are untouched. -/
theorem failing_strategy_isolated (l₁ l₂ : List StratRec) (f : StratRec)
    (t : Tick) (m : List (String × StratMetrics))
    (hf : f.evalFn t = .error ())
    (hid : f.id ∉ (l₁ ++ l₂).map StratRec.id) :
    (∀ id, id ≠ f.id →
        lookupM (processBatch t (l₁ ++ f :: l₂) m) id
          = lookupM (processBatch t (l₁ ++ l₂) m) id)
      ∧ lookupM (processBatch t (l₁ ++ f :: l₂) m) f.id
          = { lookupM m f.id with
              errorCount := (lookupM m f.id).errorCount + 1 } := by
  have hid₁ : f.id ∉ l₁.map StratRec.id := by
    intro hmem
    exact hid (by simp [hmem])
  have hid₂ : f.id ∉ l₂.map StratRec.id := by
    intro hmem
    exact hid (by simp [hmem])
  have hsplit : processBatch t (l₁ ++ f :: l₂) m
      = processBatch t l₂ (processOne t (processBatch t l₁ m) f) := by
    unfold processBatch
    rw [List.foldl_append]
    rfl
  have hsplit' : processBatch t (l₁ ++ l₂) m
      = processBatch t l₂ (processBatch t l₁ m) := by
    unfold processBatch
    rw [List.foldl_append]
  constructor
  · intro id hidne
    rw [hsplit, hsplit']
    refine processBatch_agree t f.id l₂
      (processOne t (processBatch t l₁ m) f) (processBatch t l₁ m) hid₂
      ?_ id hidne
    intro id' hid'
    exact processOne_other t (processBatch t l₁ m) f id' hid'
  · rw [hsplit, processBatch_untouched t f.id l₂ _ hid₂]
    unfold processOne
    rw [hf, lookupM_updateM_self, processBatch_untouched t f.id l₁ m hid₁]

/-- The one working strategy of the claim C7 witness: always returns a
Buy intent. -/
def okStrat : StratRec := ⟨"BTC_SMA", fun _ => .ok (some (.Buy, 1))⟩

/-- The throwing strategy of the claim C7 witness. -/
def badStrat : StratRec := ⟨"ETH_RSI", fun _ => .error ()⟩

/-- Witness for claim C7: with `okStrat` registered before the throwing
`badStrat`, the batch leaves every other id's metrics as in the run
without `badStrat`, and bumps only `badStrat`'s error counter. -/
theorem failing_strategy_isolated_witness :
    badStrat.evalFn ⟨"ETH", 2000, 1, 0⟩ = .error ()
    ∧ badStrat.id ∉ ([okStrat] ++ []).map StratRec.id
    ∧ ((∀ id, id ≠ badStrat.id →
          lookupM (processBatch ⟨"ETH", 2000, 1, 0⟩ ([okStrat] ++ badStrat :: []) []) id
            = lookupM (processBatch ⟨"ETH", 2000, 1, 0⟩ ([okStrat] ++ []) []) id)
      ∧ lookupM (processBatch ⟨"ETH", 2000, 1, 0⟩ ([okStrat] ++ badStrat :: []) [])
            badStrat.id
          = { lookupM [] badStrat.id with
              errorCount := (lookupM ([] : List (String × StratMetrics))
                badStrat.id).errorCount + 1 }) :=
  ⟨rfl, by decide,
   failing_strategy_isolated [okStrat] [] badStrat ⟨"ETH", 2000, 1, 0⟩ []
     rfl (by decide)⟩
